import Mathlib

/-!
Verification of the RiverTrackingAutomate ingestion pipeline
(`water_export_cli.py`, `landslide_export_cli.py`).

Numeric water levels and thresholds are modelled as `Option ℚ` (Python
`float`-or-`None`); machine-float rounding behaviour is not modelled, and
`round2` below uses integer rounding of the exact rational (the code's
`round(x, 2)` agrees with it away from half-way ties).
-/

namespace RiverTrack

/-! ### Threshold classifier (`classify_exceed`, `water_export_cli.py` lines 124-135) -/

/-- Models the Python test `if t and level >= t:`: a threshold participates
only when it is non-null and non-zero (Python truthiness of a float), and
the level reaches it. -/
def exceeds (v : ℚ) (t : Option ℚ) : Bool :=
  match t with
  | none => false
  | some x => decide (x ≠ 0) && decide (x ≤ v)

/-- `classify_exceed(level, bd1, bd2, bd3, hist)`: sequential checks,
historic first, first match wins; `None` level is rank 0. -/
def classify_exceed (level bd1 bd2 bd3 hist : Option ℚ) : ℕ :=
  match level with
  | none => 0
  | some v =>
    if exceeds v hist then 4
    else if exceeds v bd3 then 3
    else if exceeds v bd2 then 2
    else if exceeds v bd1 then 1
    else 0

/-- Rounding to 2 decimal places, as `round(diff, 2)` does on exact values. -/
def round2 (q : ℚ) : ℚ := (round (q * 100) : ℤ) / 100

/-- `calculate_alert_diff(level, val, bd1, bd2, bd3, hist)`
(`water_export_cli.py` lines 146-164).  `val is None` returns `None`;
the bare `except` around the arithmetic turns a `None` threshold
(`TypeError` in Python) into a `None` result, modelled by `Option.map`;
rank 0 falls back to `bd1` when `bd1` is truthy. -/
def calculate_alert_diff (level : ℕ) (val bd1 bd2 bd3 hist : Option ℚ) : Option ℚ :=
  match val with
  | none => none
  | some v =>
    if level = 4 then hist.map (fun t => round2 (v - t))
    else if level = 3 then bd3.map (fun t => round2 (v - t))
    else if level = 2 then bd2.map (fun t => round2 (v - t))
    else if level = 1 then bd1.map (fun t => round2 (v - t))
    else
      match bd1 with
      | some b => if b ≠ 0 then some (round2 (v - b)) else none
      | none => none

/-! ### Fetch window (`water_export_cli.py` lines 22-43)

Local calendar dates are modelled as day ordinals in `ℤ` (the code only
compares dates and subtracts `timedelta(days=6)`, both order-isomorphic to
the ordinal model).  The state of the existing CSV is
`none` (no file), `some none` (file exists but loading raised, including
"no valid timestamp"), or `some (some d)` (max timestamp has date `d`). -/

def computeWindow (today : ℤ) (csvMaxDate : Option (Option ℤ)) : ℤ × ℤ :=
  let endDate := today
  let startDate :=
    match csvMaxDate with
    | none => endDate - 6
    | some none => endDate - 6
    | some (some d) => if d > endDate then endDate - 6 else d
  (startDate, endDate)

/-! ### Timestamp normalizers (`water_export_cli.py` lines 166-228)

`parse_river_dt` is regex search over the label: pattern A
`(\d\x7b1,2\x7d)h\s+(\d\x7b1,2\x7d)/(\d\x7b1,2\x7d)` (hour, day, month) is tried
first; pattern B `(\d\x7b1,2\x7d)h(\d\x7b1,2\x7d)/(\d\x7b1,2\x7d)`
(hour, minute, day) is the fallback, also reached when pattern A matched but
`datetime(...)` raised `ValueError`.  `re.search` scans for the leftmost
match, with greedy backtracking inside `\d\x7b1,2\x7d`; both behaviours are
reproduced below (`searchPat` walks positions left to right;
`splitDigits12` lists the two-digit candidate before the one-digit one). -/

/-- The Python `\s` whitespace class (ASCII part, the only one occurring in
the upstream labels). -/
def isSpace (c : Char) : Bool :=
  c == ' ' || c == '\t' || c == '\n' || c == '\r' || c == '\x0b' || c == '\x0c'

/-- Python `str.strip()`. -/
def pyStrip (l : List Char) : List Char :=
  ((l.dropWhile isSpace).reverse.dropWhile isSpace).reverse

def digitVal (c : Char) : ℕ := c.toNat - 48

/-- Greedy candidates for `(\d\x7b1,2\x7d)`: value and remaining input,
two-digit option first. -/
def splitDigits12 : List Char → List (ℕ × List Char)
  | [] => []
  | [c] => if c.isDigit then [(digitVal c, [])] else []
  | c1 :: c2 :: rest =>
    if c1.isDigit && c2.isDigit then
      [(digitVal c1 * 10 + digitVal c2, rest), (digitVal c1, c2 :: rest)]
    else if c1.isDigit then [(digitVal c1, c2 :: rest)] else []

/-- Matches `/(\d\x7b1,2\x7d)` and returns the number. -/
def matchSlashNum : List Char → Option ℕ
  | '/' :: rest => (splitDigits12 rest).findSome? (fun p => some p.1)
  | _ => none

/-- Matches `(\d\x7b1,2\x7d)/(\d\x7b1,2\x7d)` with backtracking on the
first group. -/
def matchNumSlashNum (l : List Char) : Option (ℕ × ℕ) :=
  (splitDigits12 l).findSome? (fun p => (matchSlashNum p.2).map (fun m => (p.1, m)))

/-- Pattern A tail after the `h`: `\s+(\d\x7b1,2\x7d)/(\d\x7b1,2\x7d)`. -/
def tailA : List Char → Option (ℕ × ℕ)
  | [] => none
  | c :: rest => if isSpace c then matchNumSlashNum (rest.dropWhile isSpace) else none

/-- Pattern A anchored at the current position: hour, day, month. -/
def tryA (l : List Char) : Option (ℕ × ℕ × ℕ) :=
  (splitDigits12 l).findSome? (fun p =>
    match p.2 with
    | 'h' :: rest => (tailA rest).map (fun dm => (p.1, dm.1, dm.2))
    | _ => none)

/-- Pattern B anchored at the current position: hour, minute, day. -/
def tryB (l : List Char) : Option (ℕ × ℕ × ℕ) :=
  (splitDigits12 l).findSome? (fun p =>
    match p.2 with
    | 'h' :: rest => (matchNumSlashNum rest).map (fun md => (p.1, md.1, md.2))
    | _ => none)

/-- `re.search`: leftmost position where the anchored pattern matches. -/
def searchPat (try1 : List Char → Option (ℕ × ℕ × ℕ)) : List Char → Option (ℕ × ℕ × ℕ)
  | [] => none
  | c :: rest => try1 (c :: rest) <|> searchPat try1 rest

/-- A local civil timestamp (the fixed `Asia/Ho_Chi_Minh` zone is implicit). -/
structure LocalDT where
  year : ℤ
  month : ℕ
  day : ℕ
  hour : ℕ
  minute : ℕ
deriving DecidableEq, Repr

def isLeap (y : ℤ) : Bool := (y % 4 == 0 && y % 100 != 0) || y % 400 == 0

def daysInMonth (y : ℤ) (m : ℕ) : ℕ :=
  if m == 2 then (if isLeap y then 29 else 28)
  else if m == 4 || m == 6 || m == 9 || m == 11 then 30
  else 31

/-- Python `datetime(y, m, d, hh, mm)`: `some` on success, `none` when the
constructor would raise `ValueError` (field out of range, e.g. day 31 in a
30-day month). -/
def mkDatetime (y : ℤ) (m d hh mm : ℕ) : Option LocalDT :=
  if 1 ≤ y ∧ y ≤ 9999 ∧ 1 ≤ m ∧ m ≤ 12 ∧ 1 ≤ d ∧ d ≤ daysInMonth y m
      ∧ hh ≤ 23 ∧ mm ≤ 59 then
    some ⟨y, m, d, hh, mm⟩
  else none

/-- `parse_river_dt(lbl, current_year)`; `now_month` is the ambient
`datetime.now(TZ_LOCAL).month` read inside both branches.  Case A result
uses the parsed month, rolling the year back one when that month is
December and the current month is January; on `ValueError` it falls
through to case B, which uses the current month.  No match: `None`. -/
def parse_river_dt (lbl : String) (current_year : ℤ) (now_month : ℕ) : Option LocalDT :=
  if lbl = "" then none
  else
    let clean := pyStrip lbl.toList
    let caseB : Option LocalDT :=
      match searchPat tryB clean with
      | some (h, mi, d) => mkDatetime current_year now_month d h mi
      | none => none
    match searchPat tryA clean with
    | some (h, d, m) =>
      let y := if m == 12 && now_month == 1 then current_year - 1 else current_year
      match mkDatetime y m d h 0 with
      | some dt => some dt
      | none => caseB
    | none => caseB

/-- First run of digits in a string (`re.search(r"\d+", s)`), as a number. -/
def firstDigitRun : List Char → Option ℕ
  | [] => none
  | c :: rest =>
    if c.isDigit then
      some (((c :: rest).takeWhile Char.isDigit).foldl (fun a d => a * 10 + digitVal d) 0)
    else firstDigitRun rest

/-- Civil date from days since 1970-01-01 (proleptic Gregorian). -/
def civilFromDays (z : ℕ) : ℤ × ℕ × ℕ :=
  let z2 := z + 719468
  let era := z2 / 146097
  let doe := z2 % 146097
  let yoe := (doe - doe / 1460 + doe / 36524 - doe / 146096) / 365
  let y := yoe + era * 400
  let doy := doe - (365 * yoe + yoe / 4 - yoe / 100)
  let mp := (5 * doy + 2) / 153
  let d := doy - (153 * mp + 2) / 5 + 1
  let m := if mp < 10 then mp + 3 else mp - 9
  (if mp < 10 then (y : ℤ) else (y : ℤ) + 1, m, d)

/-- `ms_to_dt_local(ms_str)` (`water_export_cli.py` lines 219-228): first
digit run read as Unix epoch milliseconds, converted to the GMT+7 local
zone; `none` when no digits are found, or when `fromtimestamp` /
`astimezone` would overflow past year 9999 (all caught by the bare
`except`). -/
def ms_to_dt_local (ms_str : String) : Option LocalDT :=
  match firstDigitRun ms_str.toList with
  | none => none
  | some ms =>
    let lms := ms + 25200000
    let days := lms / 86400000
    let ymd := civilFromDays days
    let rem := lms % 86400000
    if ymd.1 ≤ 9999 then
      some ⟨ymd.1, ymd.2.1, ymd.2.2, rem / 3600000, rem % 3600000 / 60000⟩
    else none

/-! ### Incremental merge engine (`water_export_cli.py` lines 453-510) -/

/-- One row of the persisted water dataset, with the columns the merge and
sort logic touch; the remaining value columns are collapsed into an opaque
`payload` string (every CSV cell is a string once persisted). -/
structure Row where
  type : String
  entity_id : String
  name : String
  basin : String
  province : String
  timestamp : String
  payload : String
deriving DecidableEq, Repr

/-- The dedup key `subset=["type", "Mã trạm/LakeCode", "Thời gian (UTC)"]`. -/
def key (r : Row) : String × String × String := (r.type, r.entity_id, r.timestamp)

/-- Bool-valued key test (fixing one decidability route for all uses). -/
def keyEq (r : Row) (K : String × String × String) : Bool := decide (key r = K)

/-- Does some row of `l` share the dedup key of `r`? -/
def keyMem (r : Row) (l : List Row) : Bool := l.any (fun s => keyEq s (key r))

/-- `drop_duplicates(subset=key, keep="last")`: a row survives exactly when
no later row carries the same key; survivors keep their relative order. -/
def dedupLast : List Row → List Row
  | [] => []
  | r :: rs => if keyMem r rs then dedupLast rs else r :: dedupLast rs

/-- The display ordering
`["type", "Tên sông/Lưu vực", "Trạm/Hồ", "Thời gian (UTC)"]`, as a
lexicographic key. -/
def dkeyL (r : Row) : Lex (String × Lex (String × Lex (String × String))) :=
  toLex (r.type, toLex (r.basin, toLex (r.name, r.timestamp)))

def dle (a b : Row) : Bool := decide (dkeyL a ≤ dkeyL b)

/-- The display key as a plain tuple, for class-filter statements. -/
def dkey (r : Row) : String × String × String × String :=
  (r.type, r.basin, r.name, r.timestamp)

/-- Bool-valued display-key test. -/
def dkeyEq (r : Row) (d : String × String × String × String) : Bool := decide (dkey r = d)

/-- `sort_values` on a list of several columns uses numpy lexsort, a
stable sort: modelled by stable merge sort on the display key. -/
def sortDisplay (l : List Row) : List Row := l.mergeSort dle

/-- The fresh-dataset path (lines 458-459 with 508-510): the incoming rows
are sorted and written as they are. -/
def freshWrite (incoming : List Row) : List Row := sortDisplay incoming

/-- The incremental path (lines 488-503): the incoming frame (already
sorted at line 459) is appended after the existing one, deduplicated on
the key keeping the last occurrence, sorted by the display ordering and
written. -/
def mergeStep (old incoming : List Row) : List Row :=
  sortDisplay (dedupLast (old ++ sortDisplay incoming))

/-- The tail of the water `main()`: `if not final_rows: return` (lines
454-456), then one of the two write paths.  `none` models "the run ends
without writing a file" (an existing dataset stays untouched); the
overwrite fallback when the existing CSV fails to load coincides with the
fresh path. -/
def waterRun (final_rows : List Row) (existing : Option (List Row)) : Option (List Row) :=
  if final_rows.isEmpty then none
  else
    some (match existing with
      | some old => mergeStep old final_rows
      | none => freshWrite final_rows)

/-- Concrete rows sharing the dedup key with different payloads. -/
def rowV1 : Row := ⟨"River", "71518", "n", "b", "p", "t1", "1.0"⟩

def rowV2 : Row := ⟨"River", "71518", "n", "b", "p", "t1", "2.0"⟩

/-! ### Per-reading row assembly (`water_export_cli.py` lines 363-451) -/

def dateOf (dt : LocalDT) : ℤ × ℕ × ℕ := (dt.year, dt.month, dt.day)

/-- Comparison of local calendar dates (`dt_local.date() < DEFAULT_START_DATE`). -/
def dateLt (a b : ℤ × ℕ × ℕ) : Bool :=
  decide (a.1 < b.1) ||
    (decide (a.1 = b.1) &&
      (decide (a.2.1 < b.2.1) || (decide (a.2.1 = b.2.1) && decide (a.2.2 < b.2.2))))

/-- A river reading row (the fields the verified properties touch;
coordinate and threshold echo columns omitted). -/
structure RiverRow where
  id : String
  name : String
  basin : String
  province : String
  timestamp : LocalDT
  water_level : Option ℚ
  alert_value : ℕ
  alert_diff : Option ℚ
deriving DecidableEq, Repr

/-- One iteration of the river per-label loop (lines 370-406): `none`
models `continue` — the reading is dropped and contributes no row.  A
reading is dropped when its label is unparseable or its date precedes the
fetch window. -/
def processRiverReading (sid nm bas prov : String) (lbl : String) (v : Option ℚ)
    (curr_year : ℤ) (now_month : ℕ) (startDate : ℤ × ℕ × ℕ)
    (bd1 bd2 bd3 hist : Option ℚ) : Option RiverRow :=
  match parse_river_dt lbl curr_year now_month with
  | none => none
  | some dt =>
    if dateLt (dateOf dt) startDate then none
    else
      some ⟨sid, nm, bas, prov, dt, v, classify_exceed v bd1 bd2 bd3 hist,
        calculate_alert_diff (classify_exceed v bd1 bd2 bd3 hist) v bd1 bd2 bd3 hist⟩

/-- `LAKE_CONFIG` (lines 54-74): id, recoded name, basin, province. -/
def LAKE_CONFIG : List (String × String × String × String) :=
  [("467D6521-FEAE-40F3-BC73-8E4B0B1F598F", "Pleikrông", "Sê San", "Quảng Ngãi"),
   ("53e42d94-1faa-4029-93f0-739f8f5da487", "SeSan4", "Sê San", "Gia Lai"),
   ("A11984FB-8CAD-44D7-BF9E-A0E881483E47", "Hương Điền", "Hương - Bồ", "TP. Huế"),
   ("EE42CA6E-E5FC-4A9F-B90C-040211672E1B", "Sông Tranh 2", "Vu Gia - Thu Bồn", "TP. Đà Nẵng"),
   ("545B2C88-D719-42F1-8663-A1E796F44C14", "Ialy", "Sê San", "Quảng Ngãi"),
   ("A72755CC-49FE-44AF-827D-7010EB7EBCB4", "Sông Bung 4", "Vu Gia - Thu Bồn", "TP. Đà Nẵng"),
   ("1D320527-2DC9-4C79-A00B-EBB16D44F735", "Bình Điền", "Hương - Bồ", "TP. Huế"),
   ("fd622826-9f2e-4130-8995-1654bac81895", "Tả Trạch", "Hương - Bồ", "TP. Huế"),
   ("D0C28BB9-FE47-4BC2-B0DB-445038C1D1C5", "Sông Hinh", "Ba", "Đắk Lắk"),
   ("7D5B7DB0-D64A-4A36-BD4E-54A95CA62E9D", "Sông Ba Hạ", "Ba", "Đắk Lắk"),
   ("72659CC3-2BB5-4E34-810E-96722BCE0F54", "A Vương", "Vu Gia - Thu Bồn", "TP. Đà Nẵng"),
   ("4AB3F3C8-D7F4-44AA-897C-E93BDCFA1DCC", "Kanak", "Ba", "Gia Lai"),
   ("929f34bb-4d88-4364-8882-4099e75bcfd5", "Nước Trong", "Trà Khúc", "Quảng Ngãi"),
   ("9CBE33CD-5CFB-4CB9-BAEB-59147A825DF0", "Ayun Hạ", "Ba", "Gia Lai"),
   ("c9a8c4ca-f1bb-467f-82c4-0999294af8fc", "Định Bình", "Kôn - Hà Thanh", "Gia Lai"),
   ("4006E5A9-4E5A-4A46-AC19-35F1233E6B4A", "Thượng Kon Tum", "Sê San", "Quảng Ngãi"),
   ("73bb8be6-bbd6-4042-8360-30abdced336a", "Ia MLá", "Ba", "Gia Lai"),
   ("9BFF6E76-94E2-4233-B659-258D74A1295F", "Trà Xom", "Kôn - Hà Thanh", "Gia Lai"),
   ("062A7CF0-46F3-4E99-8BCD-040CEF304344", "Thuận Ninh", "Kôn - Hà Thanh", "Gia Lai")]

/-- The fields of a raw lake API record used by the loop. -/
structure LakeRec where
  LakeCode : String
  ThoiGianCapNhat : String
  TdMucNuoc : Option ℚ

/-- A lake reading row (fields the verified properties touch). -/
structure LakeRow where
  id : String
  name : String
  basin : String
  province : String
  timestamp : Option LocalDT
  water_level : Option ℚ
deriving DecidableEq, Repr

/-- One iteration of the lake loop (lines 412-451): drops records outside
the allow-list, skips rows dated before the window, but keeps a record
whose timestamp fails to parse — with a null timestamp (line 425 tests
`if dt_local and ...`, line 435 writes `None`). -/
def processLakeRecord (rec : LakeRec) (startDate : ℤ × ℕ × ℕ) : Option LakeRow :=
  match LAKE_CONFIG.find? (fun e => decide (e.1 = rec.LakeCode)) with
  | none => none
  | some conf =>
    match ms_to_dt_local rec.ThoiGianCapNhat with
    | some dt =>
      if dateLt (dateOf dt) startDate then none
      else some ⟨rec.LakeCode, conf.2.1, conf.2.2.1, conf.2.2.2, some dt, rec.TdMucNuoc⟩
    | none => some ⟨rec.LakeCode, conf.2.1, conf.2.2.1, conf.2.2.2, none, rec.TdMucNuoc⟩

/-- A lake record with an unparseable update time. -/
def lakeRecBad : LakeRec := ⟨"467D6521-FEAE-40F3-BC73-8E4B0B1F598F", "N/A", some 570.2⟩

/-! ### Landslide pipeline (`landslide_export_cli.py`) -/

/-- One landslide record as appended to `records` (lines 92-99); the
`commune_name_2cap` value already has the `P. ` prefix stripped. -/
structure LRow where
  time : String
  commune_id : String
  commune_name : String
  provinceName : String
  nguycosatlo : Option String
  nguycoluquet : Option String
deriving DecidableEq, Repr

/-- Python `str(x)` on an optional text field (`None` prints as "None"). -/
def pyStr : Option String → String
  | none => "None"
  | some s => s

/-- Python `.strip()` on a string. -/
def pyStripStr (s : String) : String := (pyStrip s.toList).asString

/-- `SEVERITY_RANK.get(..., 0)` (lines 17-21): the fixed ordinal vocabulary,
unrecognized text ranks 0. -/
def SEVERITY_RANK (s : String) : ℕ :=
  if s = "Rất cao" then 3
  else if s = "Cao" then 2
  else if s = "Trung bình" then 1
  else 0

/-- `severity_score(row)` (lines 35-39). -/
def severity_score (r : LRow) : ℕ :=
  max (SEVERITY_RANK (pyStripStr (pyStr r.nguycosatlo)))
    (SEVERITY_RANK (pyStripStr (pyStr r.nguycoluquet)))

/-- Sort key for `sort_values(["provinceName_2cap", "commune_name_2cap"])`. -/
def lkeyL (r : LRow) : Lex (String × String) := toLex (r.provinceName, r.commune_name)

def lle (a b : LRow) : Bool := decide (lkeyL a ≤ lkeyL b)

def sortProvName (l : List LRow) : List LRow := l.mergeSort lle

/-- Bool-valued commune-id test. -/
def cidEq (r : LRow) (cid : String) : Bool := decide (r.commune_id = cid)

/-- `groupby(["commune_id_2cap"])` group keys: distinct ids, sorted
ascending (pandas sorts group keys). -/
def groupIds (l : List LRow) : List String :=
  ((l.map (fun r => r.commune_id)).dedup).mergeSort (fun a b => decide (a ≤ b))

def maxSev (g : List LRow) : ℕ := (g.map severity_score).foldl max 0

/-- `g.loc[g["_sev"].idxmax()]`: the first row of the group attaining the
maximal severity score. -/
def pickTop (g : List LRow) : Option LRow :=
  g.find? (fun r => decide (severity_score r = maxSev g))

/-- The dedup block (lines 112-119): sort by (province, commune), group by
commune id, keep the single row per group with maximal `_sev`. -/
def sevDedup (l : List LRow) : List LRow :=
  (groupIds l).filterMap
    (fun cid => pickTop ((sortProvName l).filter (fun r => cidEq r cid)))

/-- The landslide `main()` tail (lines 103-124): an empty fetch still
builds a header-only dataframe and `to_csv` runs unconditionally — `some`
marks that a file is written, overwriting any previous one; there is no
no-write outcome. -/
def landslideRun (records : List LRow) : Option (List LRow) :=
  some (if records.isEmpty then [] else sortProvName (sevDedup records))

/-- The severity-dedup example rows from the specification. -/
def exL1 : LRow := ⟨"2025-10-12 08:00:00", "E", "c", "p", some "Cao", some "Rất cao"⟩

def exL2 : LRow := ⟨"2025-10-12 08:00:00", "E", "c", "p", some "Trung bình", some "Cao"⟩

end RiverTrack

namespace RiverTrack

/-! ## Theorems -/

/-- C3: the classifier returns rank 0 when the level is null; otherwise the
checks run in the order historic (4), bd3 (3), bd2 (2), bd1 (1), a threshold
counting only when non-null, non-zero and `level >= threshold`; the first
match wins, so historic dominates even when it is numerically lower than
bd3; and the result is always in `{0,1,2,3,4}`. -/
theorem classify_exceed_spec :
    (∀ b1 b2 b3 h, classify_exceed none b1 b2 b3 h = 0)
    ∧ (∀ l b1 b2 b3 h, classify_exceed l b1 b2 b3 h ∈ ({0, 1, 2, 3, 4} : Set ℕ))
    ∧ (∀ v b1 b2 b3 hv, hv ≠ 0 → hv ≤ v →
        classify_exceed (some v) b1 b2 b3 (some hv) = 4)
    ∧ (∀ v b1 b2 b3v h, exceeds v h = false → b3v ≠ 0 → b3v ≤ v →
        classify_exceed (some v) b1 b2 (some b3v) h = 3)
    ∧ (∀ v b1 b2v b3 h, exceeds v h = false → exceeds v b3 = false → b2v ≠ 0 → b2v ≤ v →
        classify_exceed (some v) b1 (some b2v) b3 h = 2)
    ∧ (∀ v b1v b2 b3 h, exceeds v h = false → exceeds v b3 = false → exceeds v b2 = false →
        b1v ≠ 0 → b1v ≤ v →
        classify_exceed (some v) (some b1v) b2 b3 h = 1)
    ∧ (∀ v b1 b2 b3 h, exceeds v h = false → exceeds v b3 = false → exceeds v b2 = false →
        exceeds v b1 = false → classify_exceed (some v) b1 b2 b3 h = 0)
    ∧ classify_exceed (some 2.5) none none (some 3) (some 2) = 4 := by
  refine ⟨fun _ _ _ _ => rfl, ?_, ?_, ?_, ?_, ?_, ?_, ?_⟩
  · intro l b1 b2 b3 h
    match l with
    | none => simp [classify_exceed]
    | some v =>
      simp only [classify_exceed]
      split
      · simp
      · split
        · simp
        · split
          · simp
          · split <;> simp
  · intro v b1 b2 b3 hv h1 h2
    have he : exceeds v (some hv) = true := by simp [exceeds, h1, h2]
    simp [classify_exceed, he]
  · intro v b1 b2 b3v h hh h1 h2
    have he : exceeds v (some b3v) = true := by simp [exceeds, h1, h2]
    simp [classify_exceed, hh, he]
  · intro v b1 b2v b3 h hh h3 h1 h2
    have he : exceeds v (some b2v) = true := by simp [exceeds, h1, h2]
    simp [classify_exceed, hh, h3, he]
  · intro v b1v b2 b3 h hh h3 h2 h1 hle
    have he : exceeds v (some b1v) = true := by simp [exceeds, h1, hle]
    simp [classify_exceed, hh, h3, h2, he]
  · intro v b1 b2 b3 h hh h3 h2 h1
    simp [classify_exceed, hh, h3, h2, h1]
  · have he : exceeds (2.5 : ℚ) (some 2) = true := by norm_num [exceeds]
    simp [classify_exceed, he]

/-- Witness for `classify_exceed_spec`: concrete instantiations discharging
each hypothesis. -/
theorem classify_exceed_spec_witness :
    classify_exceed (some 3) none none none (some 2) = 4
    ∧ classify_exceed (some 3) none none (some 2) none = 3
    ∧ classify_exceed (some 3) none (some 2) none none = 2
    ∧ classify_exceed (some 3) (some 2) none none none = 1
    ∧ classify_exceed (some 3) (some 4) none none none = 0 :=
  ⟨classify_exceed_spec.2.2.1 3 none none none 2 (by norm_num) (by norm_num),
   classify_exceed_spec.2.2.2.1 3 none none 2 none rfl (by norm_num) (by norm_num),
   classify_exceed_spec.2.2.2.2.1 3 none 2 none none rfl rfl (by norm_num) (by norm_num),
   classify_exceed_spec.2.2.2.2.2.1 3 2 none none none rfl rfl rfl (by norm_num) (by norm_num),
   classify_exceed_spec.2.2.2.2.2.2.1 3 (some 4) none none none rfl rfl rfl
     (by norm_num [exceeds])⟩

/-- A rank of 4 can only come from the historic check. -/
theorem classify_four {v : ℚ} {b1 b2 b3 h : Option ℚ}
    (hcl : classify_exceed (some v) b1 b2 b3 h = 4) : exceeds v h = true := by
  simp only [classify_exceed] at hcl
  split at hcl
  · assumption
  · split at hcl
    · omega
    · split at hcl
      · omega
      · split at hcl <;> omega

/-- A rank of 3 can only come from the bd3 check. -/
theorem classify_three {v : ℚ} {b1 b2 b3 h : Option ℚ}
    (hcl : classify_exceed (some v) b1 b2 b3 h = 3) : exceeds v b3 = true := by
  simp only [classify_exceed] at hcl
  split at hcl
  · omega
  · split at hcl
    · assumption
    · split at hcl
      · omega
      · split at hcl <;> omega

/-- A rank of 2 can only come from the bd2 check. -/
theorem classify_two {v : ℚ} {b1 b2 b3 h : Option ℚ}
    (hcl : classify_exceed (some v) b1 b2 b3 h = 2) : exceeds v b2 = true := by
  simp only [classify_exceed] at hcl
  split at hcl
  · omega
  · split at hcl
    · omega
    · split at hcl
      · assumption
      · split at hcl <;> omega

/-- A rank of 1 can only come from the bd1 check. -/
theorem classify_one {v : ℚ} {b1 b2 b3 h : Option ℚ}
    (hcl : classify_exceed (some v) b1 b2 b3 h = 1) : exceeds v b1 = true := by
  simp only [classify_exceed] at hcl
  split at hcl
  · omega
  · split at hcl
    · omega
    · split at hcl
      · omega
      · split at hcl
        · assumption
        · omega

/-- An exceeded threshold is present (non-null, non-zero) and reached. -/
theorem exceeds_some {v : ℚ} {h : Option ℚ} (he : exceeds v h = true) :
    ∃ t, h = some t ∧ t ≠ 0 ∧ t ≤ v := by
  match h with
  | none => simp [exceeds] at he
  | some t =>
    simp only [exceeds, Bool.and_eq_true, decide_eq_true_eq] at he
    exact ⟨t, rfl, he.1, he.2⟩

/-- C7: the distance-to-threshold equals level minus the threshold that
determined the computed rank, rounded to 2 decimals; rank 0 with a truthy
bd1 measures against bd1; rank 0 with bd1 absent (or zero, Python-falsy)
gives null; a null level gives null; and the spec example level=5.2,
bd1=5.0 yields rank 1 and diff 0.2. -/
theorem calculate_alert_diff_spec :
    (∀ lvl b1 b2 b3 h, calculate_alert_diff lvl none b1 b2 b3 h = none)
    ∧ (∀ v b1 b2 b3 h, classify_exceed (some v) b1 b2 b3 h = 4 →
        ∃ t, h = some t ∧ calculate_alert_diff 4 (some v) b1 b2 b3 h = some (round2 (v - t)))
    ∧ (∀ v b1 b2 b3 h, classify_exceed (some v) b1 b2 b3 h = 3 →
        ∃ t, b3 = some t ∧ calculate_alert_diff 3 (some v) b1 b2 b3 h = some (round2 (v - t)))
    ∧ (∀ v b1 b2 b3 h, classify_exceed (some v) b1 b2 b3 h = 2 →
        ∃ t, b2 = some t ∧ calculate_alert_diff 2 (some v) b1 b2 b3 h = some (round2 (v - t)))
    ∧ (∀ v b1 b2 b3 h, classify_exceed (some v) b1 b2 b3 h = 1 →
        ∃ t, b1 = some t ∧ calculate_alert_diff 1 (some v) b1 b2 b3 h = some (round2 (v - t)))
    ∧ (∀ v t b2 b3 h, t ≠ 0 →
        calculate_alert_diff 0 (some v) (some t) b2 b3 h = some (round2 (v - t)))
    ∧ (∀ v b2 b3 h, calculate_alert_diff 0 (some v) none b2 b3 h = none)
    ∧ (∀ v b2 b3 h, calculate_alert_diff 0 (some v) (some 0) b2 b3 h = none)
    ∧ classify_exceed (some 5.2) (some 5) none none none = 1
    ∧ calculate_alert_diff 1 (some 5.2) (some 5) none none none = some 0.2 := by
  refine ⟨fun _ _ _ _ _ => rfl, ?_, ?_, ?_, ?_, ?_, ?_, ?_, ?_, ?_⟩
  · intro v b1 b2 b3 h hcl
    obtain ⟨t, rfl, -, -⟩ := exceeds_some (classify_four hcl)
    exact ⟨t, rfl, by simp [calculate_alert_diff]⟩
  · intro v b1 b2 b3 h hcl
    obtain ⟨t, rfl, -, -⟩ := exceeds_some (classify_three hcl)
    exact ⟨t, rfl, by simp [calculate_alert_diff]⟩
  · intro v b1 b2 b3 h hcl
    obtain ⟨t, rfl, -, -⟩ := exceeds_some (classify_two hcl)
    exact ⟨t, rfl, by simp [calculate_alert_diff]⟩
  · intro v b1 b2 b3 h hcl
    obtain ⟨t, rfl, -, -⟩ := exceeds_some (classify_one hcl)
    exact ⟨t, rfl, by simp [calculate_alert_diff]⟩
  · intro v t b2 b3 h ht
    simp [calculate_alert_diff, ht]
  · intro v b2 b3 h
    simp [calculate_alert_diff]
  · intro v b2 b3 h
    simp [calculate_alert_diff]
  · have he : exceeds (5.2 : ℚ) (some 5) = true := by norm_num [exceeds]
    simp [classify_exceed, he, show ∀ x : ℚ, exceeds x none = false from fun _ => rfl]
  · have hv : (5.2 - 5 : ℚ) = 0.2 := by norm_num
    have hr : round2 (0.2 : ℚ) = 0.2 := by
      rw [round2, show ((0.2 : ℚ) * 100) = ((20 : ℤ) : ℚ) by norm_num]
      rw [round_intCast]
      norm_num
    simp [calculate_alert_diff, hv, hr]

/-- Witness for `calculate_alert_diff_spec`: the rank-1 and rank-0 clauses
at concrete inputs. -/
theorem calculate_alert_diff_spec_witness :
    (∃ t, (some (5 : ℚ)) = some t
      ∧ calculate_alert_diff 1 (some 5.2) (some 5) none none none = some (round2 (5.2 - t)))
    ∧ calculate_alert_diff 0 (some 4.8) (some 5) none none none = some (round2 (4.8 - 5))
    ∧ calculate_alert_diff 0 (some 4.8) none none none none = none :=
  ⟨calculate_alert_diff_spec.2.2.2.2.1 5.2 (some 5) none none none
     (by norm_num [classify_exceed, exceeds]),
   calculate_alert_diff_spec.2.2.2.2.2.1 4.8 5 none none none (by norm_num),
   calculate_alert_diff_spec.2.2.2.2.2.2.1 4.8 none none none⟩

/-- Two sorted lists that agree on every equivalence class of the sort key
are equal; `le` need not be antisymmetric on elements, only up to the
class key `k` (tested by the Bool-valued `kb`). -/
theorem eq_of_sorted_of_filter_eq {α κ : Type} (le : α → α → Bool) (k : α → κ)
    (kb : α → κ → Bool) (hkb : ∀ r d, kb r d = true ↔ k r = d)
    (anti : ∀ a b, le a b = true → le b a = true → k a = k b) :
    ∀ S₁ S₂ : List α, S₁.Pairwise (fun a b => le a b = true) →
      S₂.Pairwise (fun a b => le a b = true) →
      (∀ d : κ, S₁.filter (fun r => kb r d) = S₂.filter (fun r => kb r d)) →
      S₁ = S₂ := by
  intro S₁
  induction S₁ with
  | nil =>
    intro S₂ _ _ hf
    cases S₂ with
    | nil => rfl
    | cons b T₂ =>
      exfalso
      have h := hf (k b)
      rw [List.filter_nil, List.filter_cons_of_pos (by exact (hkb b (k b)).mpr rfl)] at h
      exact List.cons_ne_nil _ _ h.symm
  | cons a T₁ ih =>
    intro S₂ h₁ h₂ hf
    cases S₂ with
    | nil =>
      exfalso
      have h := hf (k a)
      rw [List.filter_nil, List.filter_cons_of_pos (by exact (hkb a (k a)).mpr rfl)] at h
      exact List.cons_ne_nil _ _ h
    | cons b T₂ =>
      have hab : a = b := by
        by_cases hk : k a = k b
        · have h := hf (k a)
          rw [List.filter_cons_of_pos (by exact (hkb a (k a)).mpr rfl),
            List.filter_cons_of_pos (by exact (hkb b (k a)).mpr hk.symm)] at h
          injection h with h1 h2
        · exfalso
          have ha2 : a ∈ T₂ := by
            have h := hf (k a)
            rw [List.filter_cons_of_pos (by exact (hkb a (k a)).mpr rfl),
              List.filter_cons_of_neg (by exact fun hc => hk ((hkb b (k a)).mp hc).symm)] at h
            have hmem : a ∈ T₂.filter (fun r => kb r (k a)) :=
              h ▸ List.mem_cons_self a _
            exact (List.mem_filter.mp hmem).1
          have hb1 : b ∈ T₁ := by
            have h := hf (k b)
            rw [List.filter_cons_of_neg (by exact fun hc => hk ((hkb a (k b)).mp hc)),
              List.filter_cons_of_pos (by exact (hkb b (k b)).mpr rfl)] at h
            have hmem : b ∈ T₁.filter (fun r => kb r (k b)) := by
              rw [h]
              exact List.mem_cons_self b _
            exact (List.mem_filter.mp hmem).1
          have lab : le a b = true := (List.pairwise_cons.mp h₁).1 b hb1
          have lba : le b a = true := (List.pairwise_cons.mp h₂).1 a ha2
          exact hk (anti a b lab lba)
      subst hab
      have ht : T₁ = T₂ := by
        apply ih T₂ (List.pairwise_cons.mp h₁).2 (List.pairwise_cons.mp h₂).2
        intro d
        have h := hf d
        by_cases hd : k a = d
        · rw [List.filter_cons_of_pos (by exact (hkb a d).mpr hd),
            List.filter_cons_of_pos (by exact (hkb a d).mpr hd)] at h
          injection h with h1 h2
        · rw [List.filter_cons_of_neg (by exact fun hc => hd ((hkb a d).mp hc)),
            List.filter_cons_of_neg (by exact fun hc => hd ((hkb a d).mp hc))] at h
          exact h
      rw [ht]

/-- Stability of merge sort, phrased as preservation of each sort-key
class: the sublist of rows in one class is untouched by sorting. -/
theorem mergeSort_filter_class {α κ : Type} (le : α → α → Bool) (k : α → κ)
    (kb : α → κ → Bool) (hkb : ∀ r d, kb r d = true ↔ k r = d)
    (htrans : ∀ a b c, le a b = true → le b c = true → le a c = true)
    (htotal : ∀ a b, (le a b || le b a) = true)
    (hclass : ∀ a b, k a = k b → le a b = true)
    (l : List α) (d : κ) :
    (l.mergeSort le).filter (fun r => kb r d) = l.filter (fun r => kb r d) := by
  have hpair : (l.filter (fun r => kb r d)).Pairwise (fun a b => le a b = true) := by
    apply List.pairwise_of_forall_mem_list
    intro x hx y hy
    have hkx : k x = d := (hkb x d).mp (List.mem_filter.mp hx).2
    have hky : k y = d := (hkb y d).mp (List.mem_filter.mp hy).2
    exact hclass x y (hkx.trans hky.symm)
  have hsub : List.Sublist (l.filter (fun r => kb r d)) (l.mergeSort le) :=
    List.sublist_mergeSort htrans htotal hpair (List.filter_sublist l)
  have hself : (l.filter (fun r => kb r d)).filter (fun r => kb r d) =
      l.filter (fun r => kb r d) :=
    List.filter_eq_self.mpr (fun a ha => (List.mem_filter.mp ha).2)
  have hsub2 : List.Sublist (l.filter (fun r => kb r d))
      ((l.mergeSort le).filter (fun r => kb r d)) := by
    have h3 := hsub.filter (fun r => kb r d)
    rwa [hself] at h3
  have hlen : ((l.mergeSort le).filter (fun r => kb r d)).length =
      (l.filter (fun r => kb r d)).length := by
    rw [← List.countP_eq_length_filter, ← List.countP_eq_length_filter]
    exact (List.mergeSort_perm l le).countP_eq _
  exact (hsub2.eq_of_length hlen.symm).symm

/-- The key test decides key equality. -/
theorem keyEq_iff : ∀ (r : Row) K, keyEq r K = true ↔ key r = K := by
  intro r K
  simp [keyEq]

/-- The display-key test decides display-key equality. -/
theorem dkeyEq_iff : ∀ (r : Row) d, dkeyEq r d = true ↔ dkey r = d := by
  intro r d
  simp [dkeyEq]

/-- The merge-sort comparison on rows is transitive. -/
theorem dle_trans : ∀ a b c : Row, dle a b = true → dle b c = true → dle a c = true := by
  intro a b c hab hbc
  simp only [dle, decide_eq_true_eq] at hab hbc ⊢
  exact le_trans hab hbc

/-- The merge-sort comparison on rows is total. -/
theorem dle_total : ∀ a b : Row, (dle a b || dle b a) = true := by
  intro a b
  rcases le_total (dkeyL a) (dkeyL b) with h | h <;> simp [dle, h]

/-- Mutually comparable rows share the lexicographic display key. -/
theorem dle_anti : ∀ a b : Row, dle a b = true → dle b a = true → dkeyL a = dkeyL b := by
  intro a b hab hba
  simp only [dle, decide_eq_true_eq] at hab hba
  exact le_antisymm hab hba

/-- Rows with equal lexicographic display keys compare `≤`. -/
theorem dle_class : ∀ a b : Row, dkeyL a = dkeyL b → dle a b = true := by
  intro a b h
  simp [dle, h]

/-- Mutually comparable rows share the tuple display key. -/
theorem dle_anti_dkey : ∀ a b : Row, dle a b = true → dle b a = true → dkey a = dkey b := by
  intro a b hab hba
  have h := dle_anti a b hab hba
  simp only [dkeyL, toLex_inj, Prod.mk.injEq] at h
  simp [dkey, h.1, h.2.1, h.2.2.1, h.2.2.2]

/-- Rows with equal tuple display keys compare `≤`. -/
theorem dle_class_dkey : ∀ a b : Row, dkey a = dkey b → dle a b = true := by
  intro a b h
  simp only [dkey, Prod.mk.injEq] at h
  apply dle_class
  simp [dkeyL, h.1, h.2.1, h.2.2.1, h.2.2.2]

/-- `dedupLast` only drops rows, keeping the order of survivors. -/
theorem dedupLast_sublist : ∀ l : List Row, List.Sublist (dedupLast l) l := by
  intro l
  induction l with
  | nil => simp [dedupLast]
  | cons x xs ih =>
    rw [dedupLast]
    split
    · exact ih.cons x
    · exact ih.cons₂ x

theorem mem_dedupLast_subset {r : Row} {l : List Row} (h : r ∈ dedupLast l) : r ∈ l :=
  (dedupLast_sublist l).subset h

theorem keyMem_eq_false_iff {r : Row} {l : List Row} :
    keyMem r l = false ↔ ∀ s ∈ l, key s ≠ key r := by
  rw [keyMem, List.any_eq_false]
  simp [keyEq]

/-- The surviving rows of `drop_duplicates` on the key have pairwise
distinct keys. -/
theorem dedupLast_pairwise : ∀ l : List Row, (dedupLast l).Pairwise (fun a b => key a ≠ key b) := by
  intro l
  induction l with
  | nil => simp [dedupLast]
  | cons x xs ih =>
    by_cases hx : keyMem x xs = true
    · rw [dedupLast, if_pos hx]
      exact ih
    · have hx2 : keyMem x xs = false := Bool.eq_false_iff.mpr hx
      rw [dedupLast, if_neg hx]
      refine List.pairwise_cons.mpr ⟨?_, ih⟩
      intro b hb
      exact fun hkey => (keyMem_eq_false_iff.mp hx2) b (mem_dedupLast_subset hb) hkey.symm

/-- A list with pairwise-distinct keys is unchanged by `dedupLast`. -/
theorem dedupLast_of_pairwise : ∀ {l : List Row},
    l.Pairwise (fun a b => key a ≠ key b) → dedupLast l = l := by
  intro l h
  induction l with
  | nil => rfl
  | cons x xs ih =>
    have hx : keyMem x xs = false := by
      rw [keyMem, List.any_eq_false]
      intro s hs
      simp only [keyEq, decide_eq_true_eq]
      exact fun he => (List.pairwise_cons.mp h).1 s hs he.symm
    rw [dedupLast, if_neg (by simp [hx]), ih (List.pairwise_cons.mp h).2]

/-- With pairwise-distinct keys, at most one row matches any given key. -/
theorem length_filter_key_le_one {K : String × String × String} {l : List Row}
    (h : l.Pairwise (fun a b => key a ≠ key b)) :
    (l.filter (fun r => keyEq r K)).length ≤ 1 := by
  induction l with
  | nil => simp
  | cons x xs ih =>
    rcases List.pairwise_cons.mp h with ⟨hx, hxs⟩
    by_cases hk : key x = K
    · rw [List.filter_cons_of_pos (by exact (keyEq_iff x K).mpr hk)]
      have hnil : xs.filter (fun r => keyEq r K) = [] := by
        rw [List.filter_eq_nil_iff]
        intro s hs
        exact fun hc => hx s hs (hk.trans ((keyEq_iff s K).mp hc).symm)
      simp [hnil]
    · rw [List.filter_cons_of_neg (by exact fun hc => hk ((keyEq_iff x K).mp hc))]
      exact ih hxs

/-- Rows with the same key see the same key-membership. -/
theorem keyMem_congr {a b : Row} (h : key a = key b) (l : List Row) :
    keyMem a l = keyMem b l := by
  simp [keyMem, h]

/-- Splitting `drop_duplicates(keep="last")` over a concatenation: rows of
the prefix whose key reappears in the suffix are dropped wholesale. -/
theorem dedupLast_append : ∀ X Y : List Row,
    dedupLast (X ++ Y) = dedupLast (X.filter (fun r => !keyMem r Y)) ++ dedupLast Y := by
  intro X Y
  induction X with
  | nil => simp [dedupLast]
  | cons x xs ih =>
    have hsplit : keyMem x (xs ++ Y) = (keyMem x xs || keyMem x Y) := by
      simp [keyMem, List.any_append]
    by_cases hY : keyMem x Y = true
    · rw [List.cons_append, dedupLast, if_pos (by simp [hsplit, hY]),
        List.filter_cons_of_neg (by simp [hY]), ih]
    · have hY2 : keyMem x Y = false := Bool.eq_false_iff.mpr hY
      have hfilt : keyMem x (xs.filter (fun r => !keyMem r Y)) = keyMem x xs := by
        rw [keyMem, keyMem, List.any_filter]
        cases hxx : xs.any (fun s => keyEq s (key x)) with
        | true =>
          obtain ⟨s, hs, hks⟩ := List.any_eq_true.mp hxx
          have hks2 : key s = key x := (keyEq_iff s (key x)).mp hks
          refine List.any_eq_true.mpr ⟨s, hs, ?_⟩
          have hsY : keyMem s Y = false := by rw [keyMem_congr hks2]; exact hY2
          simp [hsY, hks]
        | false =>
          refine List.any_eq_false.mpr ?_
          intro s hs
          have h5 := List.any_eq_false.mp hxx s hs
          simp only [Bool.and_eq_true]
          exact fun hc => h5 hc.2
      rw [List.cons_append, dedupLast, List.filter_cons_of_pos (by simp [hY2]), dedupLast,
        hsplit, hY2, Bool.or_false, hfilt]
      by_cases hxs : keyMem x xs = true
      · rw [if_pos hxs, if_pos hxs, ih]
      · rw [if_neg hxs, if_neg hxs, List.cons_append, ih]

/-- Within one key class, `dedupLast` keeps exactly the last occurrence. -/
theorem filter_key_dedupLast (K : String × String × String) :
    ∀ l : List Row, (dedupLast l).filter (fun r => keyEq r K) =
      ((l.filter (fun r => keyEq r K)).getLast?).toList := by
  intro l
  induction l with
  | nil => rfl
  | cons x xs ih =>
    by_cases hx : keyMem x xs = true
    · rw [dedupLast, if_pos hx, ih]
      by_cases hk : key x = K
      · rw [List.filter_cons_of_pos (by exact (keyEq_iff x K).mpr hk)]
        have hne : xs.filter (fun r => keyEq r K) ≠ [] := by
          obtain ⟨s, hs, hks⟩ := List.any_eq_true.mp hx
          have hks2 : key s = key x := (keyEq_iff s (key x)).mp hks
          intro hnil
          rw [List.filter_eq_nil_iff] at hnil
          exact hnil s hs (by simp [keyEq, hks2, hk])
        cases ht : xs.filter (fun r => keyEq r K) with
        | nil => exact absurd ht hne
        | cons y ys => rw [List.getLast?_cons_cons]
      · rw [List.filter_cons_of_neg (by exact fun hc => hk ((keyEq_iff x K).mp hc))]
    · have hx2 : keyMem x xs = false := Bool.eq_false_iff.mpr hx
      rw [dedupLast, if_neg hx]
      by_cases hk : key x = K
      · rw [List.filter_cons_of_pos (by exact (keyEq_iff x K).mpr hk),
          List.filter_cons_of_pos (by exact (keyEq_iff x K).mpr hk)]
        have hxs_nil : xs.filter (fun r => keyEq r K) = [] := by
          rw [List.filter_eq_nil_iff]
          intro s hs
          exact fun hc =>
            (keyMem_eq_false_iff.mp hx2) s hs (((keyEq_iff s K).mp hc).trans hk.symm)
        have hded_nil : (dedupLast xs).filter (fun r => keyEq r K) = [] := by
          rw [ih, hxs_nil]
          rfl
        rw [hded_nil, hxs_nil]
        rfl
      · rw [List.filter_cons_of_neg (by exact fun hc => hk ((keyEq_iff x K).mp hc)),
          List.filter_cons_of_neg (by exact fun hc => hk ((keyEq_iff x K).mp hc))]
        exact ih

/-- Re-merging the already-merged dataset with the same sorted incoming
batch reproduces it exactly: the survivors per key agree, the display-key
class sublists agree, and the stable sort fixes the order. -/
theorem mergeStep_restep (A B : List Row) :
    sortDisplay (dedupLast (sortDisplay (dedupLast (A ++ B)) ++ B)) =
      sortDisplay (dedupLast (A ++ B)) := by
  simp only [sortDisplay]
  have hMnodup : ((dedupLast (A ++ B)).mergeSort dle).Pairwise (fun a b => key a ≠ key b) :=
    ((List.mergeSort_perm (dedupLast (A ++ B)) dle).pairwise_iff
      (fun h => fun he => h he.symm)).mpr (dedupLast_pairwise _)
  have hstepa : dedupLast ((dedupLast (A ++ B)).mergeSort dle ++ B) =
      ((dedupLast (A ++ B)).mergeSort dle).filter (fun r => !keyMem r B) ++ dedupLast B := by
    rw [dedupLast_append]
    congr 1
    exact dedupLast_of_pairwise (hMnodup.filter _)
  have hfilters : ∀ d, (dedupLast ((dedupLast (A ++ B)).mergeSort dle ++ B)).filter
        (fun r => dkeyEq r d) =
      ((dedupLast (A ++ B)).mergeSort dle).filter (fun r => dkeyEq r d) := by
    intro d
    have hM_class : ((dedupLast (A ++ B)).mergeSort dle).filter (fun r => dkeyEq r d) =
        (dedupLast (A ++ B)).filter (fun r => dkeyEq r d) :=
      mergeSort_filter_class dle dkey dkeyEq dkeyEq_iff dle_trans dle_total dle_class_dkey _ d
    have hDd : (dedupLast (A ++ B)).filter (fun r => dkeyEq r d) =
        (dedupLast (A.filter (fun r => !keyMem r B))).filter (fun r => dkeyEq r d)
          ++ (dedupLast B).filter (fun r => dkeyEq r d) := by
      rw [dedupLast_append, List.filter_append]
    have hX1 : ((dedupLast (A.filter (fun r => !keyMem r B))).filter
        (fun r => dkeyEq r d)).filter (fun r => !keyMem r B) =
        (dedupLast (A.filter (fun r => !keyMem r B))).filter (fun r => dkeyEq r d) := by
      rw [List.filter_eq_self]
      intro r hr
      have hr2 : r ∈ A.filter (fun s => !keyMem s B) :=
        mem_dedupLast_subset (List.mem_filter.mp hr).1
      exact (List.mem_filter.mp hr2).2
    have hY1 : ((dedupLast B).filter (fun r => dkeyEq r d)).filter
        (fun r => !keyMem r B) = [] := by
      rw [List.filter_eq_nil_iff]
      intro r hr
      have hrB : r ∈ B := mem_dedupLast_subset (List.mem_filter.mp hr).1
      have hkm : keyMem r B = true := List.any_eq_true.mpr ⟨r, hrB, (keyEq_iff r (key r)).mpr rfl⟩
      simp [hkm]
    have hcomm : (((dedupLast (A ++ B)).mergeSort dle).filter (fun r => !keyMem r B)).filter
        (fun r => dkeyEq r d) =
        ((((dedupLast (A ++ B)).mergeSort dle).filter (fun r => dkeyEq r d)).filter
          (fun r => !keyMem r B)) := by
      rw [List.filter_filter, List.filter_filter]
      congr 1
      funext r
      rw [Bool.and_comm]
    rw [hstepa, List.filter_append, hcomm, hM_class, hDd, List.filter_append, hX1, hY1,
      List.append_nil]
  apply eq_of_sorted_of_filter_eq dle dkey dkeyEq dkeyEq_iff dle_anti_dkey
  · exact List.sorted_mergeSort dle_trans dle_total _
  · exact List.sorted_mergeSort dle_trans dle_total _
  · intro d
    rw [mergeSort_filter_class dle dkey dkeyEq dkeyEq_iff dle_trans dle_total dle_class_dkey _ d]
    exact hfilters d

/-- A length-one list containing `b` is `[b]`. -/
theorem eq_singleton_of_length_one {l : List Row} {b : Row} (h1 : l.length = 1)
    (h2 : b ∈ l) : l = [b] := by
  cases l with
  | nil => exact absurd h2 (List.not_mem_nil b)
  | cons x t =>
    cases t with
    | cons y u => simp at h1
    | nil =>
      have hb : b = x := by simpa using h2
      rw [hb]

/-- C4 counterexample: the claim asserts that parsing the spec example
label `"0h \n15/11"` with current month January yields a year decremented
by one; the code parses month 11 (November), which is not December, so the
roll-back does not fire and the current year is kept unchanged. -/
theorem parse_river_dt_rollback_counterexample :
    (parse_river_dt "0h \n15/11" 2024 1).map LocalDT.year = some 2024
    ∧ (parse_river_dt "0h \n15/11" 2024 1).map LocalDT.year ≠ some (2024 - 1) := by
  constructor
  · rfl
  · decide

/-- C4 (amended): the label parser attempts the hour-day-month pattern
first (it wins on `"1h2/3 4h 5/6"` even though the hour-minute-day pattern
matches at an earlier position) and falls back to the hour-minute-day
pattern (used for `"7h30/12"`, giving 2024-07-12T07:30 with current year
2024, month 7); the year roll-back fires only when the parsed month is
December and the current month is January, so `"0h \n15/12"` in January
yields the previous year while the spec example `"0h \n15/11"` keeps the
current year; a label matching neither pattern is unparseable. -/
theorem parse_river_dt_amended :
    parse_river_dt "7h30/12" 2024 7 = some ⟨2024, 7, 12, 7, 30⟩
    ∧ parse_river_dt "0h \n15/11" 2024 1 = some ⟨2024, 11, 15, 0, 0⟩
    ∧ parse_river_dt "0h \n15/12" 2024 1 = some ⟨2023, 12, 15, 0, 0⟩
    ∧ parse_river_dt "1h2/3 4h 5/6" 2024 7 = some ⟨2024, 6, 5, 4, 0⟩
    ∧ parse_river_dt "hello" 2024 7 = none := by
  exact ⟨rfl, rfl, rfl, rfl, rfl⟩

/-- C6: the fetch window has `end_date` = today; `start_date` is the
existing dataset's max timestamp date `D` when it loads and `D ≤ today`,
and `today - 6` when the file is missing, fails to load / has no valid
timestamp, or is future-dated (`D > today`). -/
theorem computeWindow_spec :
    (∀ today csv, (computeWindow today csv).2 = today)
    ∧ (∀ today, (computeWindow today none).1 = today - 6)
    ∧ (∀ today, (computeWindow today (some none)).1 = today - 6)
    ∧ (∀ today d, d ≤ today → (computeWindow today (some (some d))).1 = d)
    ∧ (∀ today d, d > today → (computeWindow today (some (some d))).1 = today - 6) := by
  refine ⟨?_, fun _ => rfl, fun _ => rfl, ?_, ?_⟩
  · intro today csv
    match csv with
    | none => rfl
    | some none => rfl
    | some (some d) => rfl
  · intro today d h
    simp [computeWindow, not_lt.mpr h]
  · intro today d h
    simp [computeWindow, h]

/-- Witness for `computeWindow_spec`: a current dataset date is kept, a
future-dated one falls back to a 7-day window. -/
theorem computeWindow_spec_witness :
    (computeWindow 100 (some (some 98))).1 = 98
    ∧ (computeWindow 100 (some (some 101))).1 = 100 - 6 :=
  ⟨computeWindow_spec.2.2.2.1 100 98 (by norm_num),
   computeWindow_spec.2.2.2.2 100 101 (by norm_num)⟩

/-- C9: the merge is idempotent — merging the same incoming set into the
result of merging it into any existing dataset reproduces that result
exactly (rows, order and all). -/
theorem merge_idempotent :
    ∀ old incoming : List Row,
      mergeStep (mergeStep old incoming) incoming = mergeStep old incoming := by
  intro old incoming
  simp only [mergeStep]
  exact mergeStep_restep old (sortDisplay incoming)

/-- C1 counterexample: with no prior dataset the code writes the sorted
incoming rows without self-deduplication (lines 458-459 and 508-510), so
an incoming batch with a duplicated key is written with the key appearing
twice, and differs from the self-deduplicated dataset the claim asserts. -/
theorem fresh_write_dup_counterexample :
    freshWrite [rowV1, rowV2] ≠ sortDisplay (dedupLast [rowV1, rowV2])
    ∧ (freshWrite [rowV1, rowV2]).countP (fun r => keyEq r (key rowV1)) = 2 := by
  have hd : dedupLast [rowV1, rowV2] = [rowV2] := by decide
  have hc : (freshWrite [rowV1, rowV2]).countP (fun r => keyEq r (key rowV1)) = 2 := by
    rw [show (freshWrite [rowV1, rowV2]).countP (fun r => keyEq r (key rowV1)) =
        ([rowV1, rowV2]).countP (fun r => keyEq r (key rowV1)) from
      (List.mergeSort_perm _ dle).countP_eq _]
    decide
  refine ⟨?_, hc⟩
  intro heq
  have hlen := congrArg List.length heq
  rw [hd] at hlen
  simp only [freshWrite, sortDisplay, List.length_mergeSort] at hlen
  simp at hlen

/-- C1 (amended): when a prior dataset exists and loads, the concatenation
of old and new rows is deduplicated on (type, entity_id, timestamp) before
writing, so every key occurs at most once; when no prior dataset exists
the incoming rows are written sorted but not self-deduplicated, so each
key occurs exactly as often as in the incoming batch. -/
theorem merged_key_unique :
    ∀ old incoming K,
      (mergeStep old incoming).countP (fun r => keyEq r K) ≤ 1
      ∧ (freshWrite incoming).countP (fun r => keyEq r K) =
          incoming.countP (fun r => keyEq r K) := by
  intro old incoming K
  constructor
  · have hperm : List.Perm (mergeStep old incoming)
        (dedupLast (old ++ sortDisplay incoming)) :=
      List.mergeSort_perm _ dle
    rw [hperm.countP_eq, List.countP_eq_length_filter]
    exact length_filter_key_le_one (dedupLast_pairwise _)
  · exact (List.mergeSort_perm incoming dle).countP_eq _

/-- C2: last write wins — when the existing dataset holds row `a` with key
K and the incoming batch holds row `b` as its only row with key K, the
merged dataset contains `b` and not `a`. -/
theorem merge_last_write_wins :
    ∀ old incoming a b, a ∈ old → key a = key b → b ∈ incoming →
      incoming.countP (fun r => keyEq r (key b)) = 1 → a ≠ b →
      b ∈ mergeStep old incoming ∧ a ∉ mergeStep old incoming := by
  intro old incoming a b ha hkey hb hcount hne
  have hSperm : List.Perm (sortDisplay incoming) incoming := List.mergeSort_perm _ _
  have hSfil : (sortDisplay incoming).filter (fun r => keyEq r (key b)) = [b] := by
    apply eq_singleton_of_length_one
    · rw [← List.countP_eq_length_filter, hSperm.countP_eq]
      exact hcount
    · exact List.mem_filter.mpr ⟨hSperm.mem_iff.mpr hb, (keyEq_iff b (key b)).mpr rfl⟩
  have hDfil : (dedupLast (old ++ sortDisplay incoming)).filter
      (fun r => keyEq r (key b)) = [b] := by
    rw [filter_key_dedupLast, List.filter_append, hSfil, List.getLast?_concat]
    rfl
  have hmergePerm : List.Perm (mergeStep old incoming)
      (dedupLast (old ++ sortDisplay incoming)) :=
    List.mergeSort_perm _ dle
  constructor
  · apply hmergePerm.mem_iff.mpr
    have hmem : b ∈ (dedupLast (old ++ sortDisplay incoming)).filter
        (fun r => keyEq r (key b)) := by
      rw [hDfil]
      exact List.mem_cons_self b []
    exact (List.mem_filter.mp hmem).1
  · intro hmem
    have hmem2 : a ∈ dedupLast (old ++ sortDisplay incoming) := hmergePerm.mem_iff.mp hmem
    have hmem3 : a ∈ (dedupLast (old ++ sortDisplay incoming)).filter
        (fun r => keyEq r (key b)) :=
      List.mem_filter.mpr ⟨hmem2, (keyEq_iff a (key b)).mpr hkey⟩
    rw [hDfil] at hmem3
    exact hne (by simpa using hmem3)

/-- Witness for `merge_last_write_wins`: the stale row is replaced by the
incoming one for the same key. -/
theorem merge_last_write_wins_witness :
    rowV2 ∈ mergeStep [rowV1] [rowV2] ∧ rowV1 ∉ mergeStep [rowV1] [rowV2] :=
  merge_last_write_wins [rowV1] [rowV2] rowV1 rowV2 (by decide) (by decide) (by decide)
    (by decide) (by decide)

/-- C8 counterexample: a landslide run that fetches zero records still
writes a file (a header-only empty dataset), overwriting any previous
one — the claim that both pipelines terminate early without writing is
false for the landslide pipeline (lines 104-123 build an empty dataframe
and call `to_csv` unconditionally). -/
theorem landslide_empty_writes_counterexample :
    landslideRun [] = some [] ∧ landslideRun [] ≠ none := by
  exact ⟨rfl, by simp [landslideRun]⟩

/-- C8 (amended): the water pipeline returns early without writing when
zero rows are fetched, leaving any prior dataset untouched; the landslide
pipeline instead always writes, producing an empty (header-only) dataset
when zero records are fetched. -/
theorem empty_fetch_amended :
    (∀ existing, waterRun [] existing = none) ∧ landslideRun [] = some [] :=
  ⟨fun _ => rfl, rfl⟩

/-- C5 counterexample: a lake record whose `ThoiGianCapNhat` fails to
parse is not dropped — it is appended with a null timestamp (line 425
skips only when `dt_local` is truthy and stale; line 435 stores `None`). -/
theorem lake_unparseable_kept_counterexample :
    processLakeRecord lakeRecBad (0, 1, 1) ≠ none
    ∧ processLakeRecord lakeRecBad (0, 1, 1) =
        some ⟨"467D6521-FEAE-40F3-BC73-8E4B0B1F598F", "Pleikrông", "Sê San", "Quảng Ngãi",
          none, some 570.2⟩ := by
  refine ⟨?_, rfl⟩
  intro h
  rw [show processLakeRecord lakeRecBad (0, 1, 1) =
      some ⟨"467D6521-FEAE-40F3-BC73-8E4B0B1F598F", "Pleikrông", "Sê San", "Quảng Ngãi",
        none, some 570.2⟩ from rfl] at h
  exact Option.some_ne_none _ h

/-- C5 (amended): both timestamp normalizers are total functions into an
option type — unparseable input (no digits, no matching pattern, or an
invalid calendar date such as day 31 in November) yields `none` rather
than an exception; a river reading with an unparseable label is dropped;
but a lake reading with an unparseable update time is kept, with a null
timestamp. -/
theorem timestamp_drop_amended :
    (∀ sid nm bas prov lbl v cy nmo sd b1 b2 b3 h,
      parse_river_dt lbl cy nmo = none →
      processRiverReading sid nm bas prov lbl v cy nmo sd b1 b2 b3 h = none)
    ∧ (∀ rec sd conf, LAKE_CONFIG.find? (fun e => decide (e.1 = rec.LakeCode)) = some conf →
        ms_to_dt_local rec.ThoiGianCapNhat = none →
        processLakeRecord rec sd =
          some ⟨rec.LakeCode, conf.2.1, conf.2.2.1, conf.2.2.2, none, rec.TdMucNuoc⟩)
    ∧ parse_river_dt "5h 31/11" 2024 1 = none
    ∧ ms_to_dt_local "N/A" = none := by
  refine ⟨?_, ?_, rfl, rfl⟩
  · intro sid nm bas prov lbl v cy nmo sd b1 b2 b3 h hp
    simp [processRiverReading, hp]
  · intro rec sd conf hconf hms
    simp [processLakeRecord, hconf, hms]

/-- Witness for `timestamp_drop_amended`: a river reading with a
nonsense label is dropped; the bad lake record is kept with no timestamp. -/
theorem timestamp_drop_amended_witness :
    processRiverReading "71518" "n" "b" "p" "???" none 2024 7 (0, 1, 1)
        none none none none = none
    ∧ processLakeRecord lakeRecBad (0, 1, 1) =
        some ⟨"467D6521-FEAE-40F3-BC73-8E4B0B1F598F", "Pleikrông", "Sê San", "Quảng Ngãi",
          none, some 570.2⟩ :=
  ⟨timestamp_drop_amended.1 "71518" "n" "b" "p" "???" none 2024 7 (0, 1, 1)
      none none none none rfl,
   timestamp_drop_amended.2.1 lakeRecBad (0, 1, 1)
      ("467D6521-FEAE-40F3-BC73-8E4B0B1F598F", "Pleikrông", "Sê San", "Quảng Ngãi") rfl rfl⟩

/-- A left fold of `max` either keeps its seed or lands in the list. -/
theorem foldl_max_eq_or_mem : ∀ (l : List ℕ) (a : ℕ), l.foldl max a = a ∨ l.foldl max a ∈ l := by
  intro l
  induction l with
  | nil => exact fun _ => Or.inl rfl
  | cons x t ih =>
    intro a
    rw [List.foldl_cons]
    rcases ih (max a x) with h | h
    · rcases max_choice a x with hc | hc
      · exact Or.inl (h.trans hc)
      · exact Or.inr (by rw [h, hc]; exact List.mem_cons_self x t)
    · exact Or.inr (List.mem_cons_of_mem x h)

/-- The seed bounds a left fold of `max` from below. -/
theorem le_foldl_max : ∀ (l : List ℕ) (a : ℕ), a ≤ l.foldl max a := by
  intro l
  induction l with
  | nil => exact fun a => le_refl a
  | cons x t ih =>
    intro a
    rw [List.foldl_cons]
    exact le_trans (le_max_left a x) (ih (max a x))

/-- Every member bounds a left fold of `max` from below. -/
theorem mem_le_foldl_max : ∀ (l : List ℕ) (a x : ℕ), x ∈ l → x ≤ l.foldl max a := by
  intro l
  induction l with
  | nil => intro a x hx; cases hx
  | cons y t ih =>
    intro a x hx
    rw [List.foldl_cons]
    rcases List.mem_cons.mp hx with rfl | hx2
    · exact le_trans (le_max_right a x) (le_foldl_max t (max a x))
    · exact ih (max a y) x hx2

/-- A nonempty group attains its maximal severity score. -/
theorem maxSev_attained : ∀ g : List LRow, g ≠ [] → ∃ r ∈ g, severity_score r = maxSev g := by
  intro g hg
  rcases foldl_max_eq_or_mem (g.map severity_score) 0 with h | h
  · cases g with
    | nil => exact absurd rfl hg
    | cons r t =>
      refine ⟨r, List.mem_cons_self r t, ?_⟩
      have hle : severity_score r ≤ maxSev (r :: t) :=
        mem_le_foldl_max _ 0 _ (List.mem_map_of_mem _ (List.mem_cons_self r t))
      have h0 : maxSev (r :: t) = 0 := h
      omega
  · obtain ⟨r, hr, hsc⟩ := List.mem_map.mp h
    exact ⟨r, hr, hsc⟩

/-- The maximal severity score is invariant under permutation. -/
theorem maxSev_perm {g1 g2 : List LRow} (h : List.Perm g1 g2) : maxSev g1 = maxSev g2 := by
  rw [maxSev, maxSev]
  exact (h.map severity_score).foldl_eq'
    (fun x _ y _ z => by rw [max_assoc, max_comm x y, ← max_assoc]) 0

/-- Group keys are exactly the commune ids occurring in the batch. -/
theorem mem_groupIds {rows : List LRow} {cid : String} :
    cid ∈ groupIds rows ↔ cid ∈ rows.map (fun r => r.commune_id) := by
  rw [groupIds, List.mem_mergeSort, List.mem_dedup]

/-- Group keys are pairwise distinct. -/
theorem groupIds_nodup (rows : List LRow) : (groupIds rows).Nodup := by
  rw [groupIds]
  exact ((List.mergeSort_perm _ _).nodup_iff).mpr (List.nodup_dedup _)

/-- The selected row belongs to its group. -/
theorem pickTop_mem {g : List LRow} {r : LRow} (h : pickTop g = some r) : r ∈ g :=
  List.mem_of_find?_eq_some h

/-- The selected row attains the group's maximal severity score. -/
theorem pickTop_score {g : List LRow} {r : LRow} (h : pickTop g = some r) :
    severity_score r = maxSev g := by
  have := List.find?_some h
  simpa using this

/-- A nonempty group yields a selected row. -/
theorem pickTop_isSome {g : List LRow} (hg : g ≠ []) : ∃ r, pickTop g = some r := by
  obtain ⟨r, hr, hs⟩ := maxSev_attained g hg
  have hsome : (g.find? (fun s => decide (severity_score s = maxSev g))).isSome := by
    rw [List.find?_isSome]
    exact ⟨r, hr, by simp [hs]⟩
  obtain ⟨x, hx⟩ := Option.isSome_iff_exists.mp hsome
  exact ⟨x, hx⟩

/-- No produced row carries an id that is absent from the group keys. -/
theorem countP_filterMap_cid_zero (f : String → Option LRow) (cid : String) :
    ∀ L : List String, cid ∉ L → (∀ c ∈ L, ∀ r, f c = some r → r.commune_id = c) →
      (L.filterMap f).countP (fun r => cidEq r cid) = 0 := by
  intro L
  induction L with
  | nil => intro _ _; rfl
  | cons c L2 ih =>
    intro hmem hids
    rw [List.filterMap_cons]
    have hmem2 : cid ∉ L2 := fun h => hmem (List.mem_cons_of_mem c h)
    have hids2 : ∀ c2 ∈ L2, ∀ r, f c2 = some r → r.commune_id = c2 :=
      fun c2 h2 => hids c2 (List.mem_cons_of_mem c h2)
    cases hf : f c with
    | none => exact ih hmem2 hids2
    | some r =>
      rw [List.countP_cons]
      have hid : r.commune_id = c := hids c (List.mem_cons_self c L2) r hf
      have hne : cidEq r cid = false := by
        simp only [cidEq, hid, decide_eq_false_iff_not]
        exact fun he => hmem (he ▸ List.mem_cons_self c L2)
      simp [hne, ih hmem2 hids2]

/-- Exactly one produced row carries a given present group key. -/
theorem countP_filterMap_cid_one (f : String → Option LRow) (cid : String) :
    ∀ L : List String, L.Nodup → cid ∈ L →
      (∀ c ∈ L, ∀ r, f c = some r → r.commune_id = c) →
      (∃ r, f cid = some r) →
      (L.filterMap f).countP (fun r => cidEq r cid) = 1 := by
  intro L
  induction L with
  | nil => intro _ h; cases h
  | cons c L2 ih =>
    intro hnd hmem hids hex
    rw [List.filterMap_cons]
    rcases List.mem_cons.mp hmem with rfl | hmem2
    · obtain ⟨r, hr⟩ := hex
      simp only [hr]
      have hid : r.commune_id = cid := hids cid (List.mem_cons_self cid L2) r hr
      have hyes : cidEq r cid = true := by simp [cidEq, hid]
      have hz : (L2.filterMap f).countP (fun s => cidEq s cid) = 0 :=
        countP_filterMap_cid_zero f cid L2 (List.nodup_cons.mp hnd).1
          (fun c2 h2 => hids c2 (List.mem_cons_of_mem cid h2))
      simp [List.countP_cons, hyes, hz]
    · have hcne : c ≠ cid := fun he => (List.nodup_cons.mp hnd).1 (he ▸ hmem2)
      have hrec := ih (List.nodup_cons.mp hnd).2 hmem2
        (fun c2 h2 => hids c2 (List.mem_cons_of_mem c h2)) hex
      cases hf : f c with
      | none => exact hrec
      | some r =>
        have hid : r.commune_id = c := hids c (List.mem_cons_self c L2) r hf
        have hne : cidEq r cid = false := by
          simp only [cidEq, hid, decide_eq_false_iff_not]
          exact fun he => hcne he
        simp [List.countP_cons, hne, hrec]

/-- Every member of a severity group has the group's commune id. -/
theorem group_ids (rows : List LRow) (cid : String) :
    ∀ s ∈ (sortProvName rows).filter (fun r => cidEq r cid), s.commune_id = cid := by
  intro s hs
  have := (List.mem_filter.mp hs).2
  simpa [cidEq] using this

/-- C10: the severity deduplicator keeps exactly one row per commune id —
a row drawn from the batch whose score max(erosion_rank, flash_flood_rank)
is maximal within the id's group — with ranks from the fixed vocabulary;
on the spec example the score-3 row is kept over the score-2 row. -/
theorem sevDedup_spec :
    (∀ rows cid, cid ∈ rows.map (fun r => r.commune_id) →
      ((sevDedup rows).countP (fun r => cidEq r cid) = 1
        ∧ ∀ r ∈ sevDedup rows, r.commune_id = cid →
            r ∈ rows ∧ severity_score r = maxSev (rows.filter (fun s => cidEq s cid))))
    ∧ sevDedup [exL1, exL2] = [exL1]
    ∧ severity_score exL1 = 3 ∧ severity_score exL2 = 2
    ∧ SEVERITY_RANK "Rất cao" = 3 ∧ SEVERITY_RANK "Cao" = 2
    ∧ SEVERITY_RANK "Trung bình" = 1 ∧ SEVERITY_RANK "nonsense" = 0 := by
  have hmain : ∀ rows cid, cid ∈ rows.map (fun r => r.commune_id) →
      ((sevDedup rows).countP (fun r => cidEq r cid) = 1
        ∧ ∀ r ∈ sevDedup rows, r.commune_id = cid →
            r ∈ rows ∧ severity_score r = maxSev (rows.filter (fun s => cidEq s cid))) := by
    intro rows cid hcid
    have hne : (sortProvName rows).filter (fun r => cidEq r cid) ≠ [] := by
      obtain ⟨r, hr, hid⟩ := List.mem_map.mp hcid
      have hr2 : r ∈ sortProvName rows := List.mem_mergeSort.mpr hr
      exact List.ne_nil_of_mem
        (List.mem_filter.mpr ⟨hr2, by simp [cidEq, hid]⟩)
    constructor
    · apply countP_filterMap_cid_one _ cid (groupIds rows) (groupIds_nodup rows)
        (mem_groupIds.mpr hcid)
      · intro c hc r hf
        exact group_ids rows c r (pickTop_mem hf)
      · exact pickTop_isSome hne
    · intro r hr hid
      obtain ⟨c, hcg, hfc⟩ := List.mem_filterMap.mp hr
      have hidc : r.commune_id = c := group_ids rows c r (pickTop_mem hfc)
      have hceq : c = cid := hidc.symm.trans hid
      subst hceq
      constructor
      · exact List.mem_mergeSort.mp (List.mem_filter.mp (pickTop_mem hfc)).1
      · have hperm : List.Perm ((sortProvName rows).filter (fun s => cidEq s c))
            (rows.filter (fun s => cidEq s c)) :=
          (List.mergeSort_perm rows lle).filter _
        exact (pickTop_score hfc).trans (maxSev_perm hperm)
  refine ⟨hmain, ?_, by decide, by decide, by decide, by decide, by decide, by decide⟩
  have hpair : List.Pairwise (fun a b => lle a b = true) [exL1, exL2] := by
    refine List.pairwise_cons.mpr ⟨?_, List.pairwise_singleton _ _⟩
    intro b hb
    have hb2 : b = exL2 := by simpa using hb
    subst hb2
    simp [lle, lkeyL, exL1, exL2]
  have hsort : sortProvName [exL1, exL2] = [exL1, exL2] := List.mergeSort_of_sorted hpair
  have hgroup : groupIds [exL1, exL2] = ["E"] := by
    rw [groupIds]
    rw [show ([exL1, exL2].map (fun r => r.commune_id)) = ["E", "E"] from rfl]
    rw [show (["E", "E"] : List String).dedup = ["E"] from by decide]
    exact List.mergeSort_singleton "E"
  rw [sevDedup, hgroup, hsort]
  decide

/-- Witness for `sevDedup_spec`: the universal clause instantiated on the
spec example. -/
theorem sevDedup_spec_witness :
    ("E" ∈ [exL1, exL2].map (fun r => r.commune_id))
    ∧ ((sevDedup [exL1, exL2]).countP (fun r => cidEq r "E") = 1
        ∧ ∀ r ∈ sevDedup [exL1, exL2], r.commune_id = "E" →
            r ∈ [exL1, exL2]
              ∧ severity_score r = maxSev ([exL1, exL2].filter (fun s => cidEq s "E"))) :=
  ⟨by decide, sevDedup_spec.1 [exL1, exL2] "E" (by decide)⟩

end RiverTrack
